import Mathlib

/-!
# Verification of the `index_screener_supa` stock screener

Shallow embedding of the parts of the repository that the claims are
about:

* `frontend/src/hooks/useStocks.ts` — the client reconciliation layer:
  the one-shot fetch order, the realtime insert/update/delete handlers,
  the `sortByRecommendation` comparator and the derived `stocks` /
  `screenedStocks` views.
* `supabase/schema.sql` — the `stocks` table column defaults, the
  `market_status` singleton table and the `screened_stocks` view.
* `frontend/src/components/StatsCards.tsx` — the pass-rate statistic.
* the screening/scoring engine (the Python scraper), which is not part
  of the source tree here and is therefore modelled from the spec §4.3.

Numeric columns are embedded as `Int` (SQL `INTEGER`/`BIGINT`) and `ℚ`
(SQL `DECIMAL`); JavaScript's stable `Array.prototype.sort` is embedded
as `List.insertionSort` (stable) with the comparator turned into the
corresponding total preorder.
-/

namespace IndexScreener

/-- The fields of the TypeScript `Stock` record (`types/stock.ts`) that
`useStocks.ts` reads: the realtime handlers use `symbol` and `score`,
`sortByRecommendation` uses `score`, `acc_dist_status`, `net_foreign`
and `change_percent`, and the screened view uses `passed_screen`.  The
remaining fields of the record are never inspected by the hook. -/
structure Stock where
  symbol : String
  score : Int
  acc_dist_status : String
  net_foreign : Int
  change_percent : ℚ
  passed_screen : Bool
deriving DecidableEq, Repr

/-- From useStocks.ts lines 115–121: base `score`, plus 50 when
`acc_dist_status === 'accumulation'`, plus 30 when `net_foreign > 0`,
plus 20 when `change_percent > 0`. -/
def getRecommendationScore (s : Stock) : Int :=
  s.score + (if s.acc_dist_status = "accumulation" then 50 else 0)
    + (if 0 < s.net_foreign then 30 else 0)
    + (if 0 < s.change_percent then 20 else 0)

/-- The total preorder realised by the stable JS sort with comparator
`getRecommendationScore(b) - getRecommendationScore(a)`
(`useStocks.ts` line 122): `a` may stay before `b` iff the comparator
is `≤ 0` there, i.e. descending by recommendation score. -/
def recLe (a b : Stock) : Prop :=
  getRecommendationScore b ≤ getRecommendationScore a

instance : DecidableRel recLe := fun a b =>
  inferInstanceAs (Decidable (_ ≤ _))

instance : IsTotal Stock recLe := ⟨fun a b => le_total _ _⟩

instance : IsTrans Stock recLe := ⟨fun _ _ _ h₁ h₂ => le_trans h₂ h₁⟩

/-- From useStocks.ts lines 127 and 130: a stable sort with the
`sortByRecommendation` comparator. -/
def sortByRecommendation (l : List Stock) : List Stock :=
  l.insertionSort recLe

/-- The exposed full collection (`useStocks.ts` line 130):
`[...stocks].sort(sortByRecommendation)`. -/
def stocksView (stocks : List Stock) : List Stock :=
  sortByRecommendation stocks

/-- The exposed screened collection (`useStocks.ts` lines 125–127):
`stocks.filter((s) => s.passed_screen).sort(sortByRecommendation)`. -/
def screenedStocksView (stocks : List Stock) : List Stock :=
  sortByRecommendation (stocks.filter (fun s => s.passed_screen))

/-- The total preorder realised by the stable JS sort with comparator
`b.score - a.score` (`useStocks.ts` lines 77 and 79): descending by the
base `score`. -/
def scoreLe (a b : Stock) : Prop := b.score ≤ a.score

instance : DecidableRel scoreLe := fun a b =>
  inferInstanceAs (Decidable (_ ≤ _))

instance : IsTotal Stock scoreLe := ⟨fun a b => le_total _ _⟩

instance : IsTrans Stock scoreLe := ⟨fun _ _ _ h₁ h₂ => le_trans h₂ h₁⟩

/-- From useStocks.ts lines 77 and 79: `.sort((a, b) => b.score - a.score)`. -/
def sortByScore (l : List Stock) : List Stock :=
  l.insertionSort scoreLe

/-- From useStocks.ts lines 70–80, the INSERT/UPDATE branch of the realtime
handler: find the index of the row with the event's symbol; if found,
replace it in place, otherwise append; in both cases sort the result by
`b.score - a.score`. `List.findIdx` returns `prev.length` when nothing
matches, mirroring the `index >= 0` test on JS `findIndex`. -/
def applyUpsert (newStock : Stock) (prev : List Stock) : List Stock :=
  let index := prev.findIdx (fun s => s.symbol == newStock.symbol)
  if index < prev.length then
    sortByScore (prev.set index newStock)
  else
    sortByScore (prev ++ [newStock])

/-- From useStocks.ts lines 81–84, the DELETE branch:
`prev.filter((s) => s.symbol !== oldStock.symbol)`. -/
def applyDelete (sym : String) (prev : List Stock) : List Stock :=
  prev.filter (fun s => s.symbol != sym)

/-- A change event of the realtime stream, keyed by symbol.  INSERT and
UPDATE payloads are handled by the same branch of the hook and carry the
whole new row; DELETE payloads carry only the symbol. -/
inductive ChangeEvent where
  | upsert (row : Stock)
  | delete (symbol : String)
deriving DecidableEq, Repr

/-- One step of the client reconciliation handler of `useStocks.ts`. -/
def applyEvent (prev : List Stock) : ChangeEvent → List Stock
  | .upsert n => applyUpsert n prev
  | .delete sym => applyDelete sym prev

/-- The client state after a finite sequence of stream events. -/
def applyEvents (st : List Stock) (es : List ChangeEvent) : List Stock :=
  es.foldl applyEvent st

/-- The mutation the spec folds over the initial fetch: an upsert writes
the row keyed by its symbol (replace the row carrying that symbol, else
append), a delete removes exactly the rows whose symbol matches. -/
def mergeRow (n : Stock) : List Stock → List Stock
  | [] => [n]
  | s :: rest => if s.symbol = n.symbol then n :: rest else s :: mergeRow n rest

/-- Spec-side fold step: the mutation of one event, with no re-sorting. -/
def specApply (st : List Stock) : ChangeEvent → List Stock
  | .upsert n => mergeRow n st
  | .delete sym => st.filter (fun s => s.symbol != sym)

/-- Spec-side state: the initial fetch with the mutations folded in
event order. -/
def specApplyEvents (st : List Stock) (es : List ChangeEvent) : List Stock :=
  es.foldl specApply st

/-- The order of the `screened_stocks` view (`schema.sql` line 91):
`ORDER BY score DESC, symbol ASC` (the symbol text compared
lexicographically by its characters). -/
def viewLe (a b : Stock) : Prop :=
  b.score < a.score ∨ (a.score = b.score ∧ a.symbol.data ≤ b.symbol.data)

instance : DecidableRel viewLe := fun a b =>
  inferInstanceAs (Decidable (_ ∨ _))

instance : IsTotal Stock viewLe :=
  ⟨fun a b => by
    rcases lt_trichotomy a.score b.score with h | h | h
    · exact Or.inr (Or.inl h)
    · rcases le_total a.symbol.data b.symbol.data with hs | hs
      · exact Or.inl (Or.inr ⟨h, hs⟩)
      · exact Or.inr (Or.inr ⟨h.symm, hs⟩)
    · exact Or.inl (Or.inl h)⟩

instance : IsTrans Stock viewLe :=
  ⟨fun a b c h₁ h₂ => by
    rcases h₁ with h₁ | ⟨e₁, s₁⟩
    · rcases h₂ with h₂ | ⟨e₂, _⟩
      · exact Or.inl (h₂.trans h₁)
      · exact Or.inl (e₂ ▸ h₁)
    · rcases h₂ with h₂ | ⟨e₂, s₂⟩
      · exact Or.inl (e₁ ▸ h₂)
      · exact Or.inr ⟨e₁.trans e₂, s₁.trans s₂⟩⟩

/-- From schema.sql lines 87–91: the `screened_stocks` view selects the
rows with `passed_screen = TRUE` ordered by `score DESC, symbol ASC`. -/
def screened_stocks (rows : List Stock) : List Stock :=
  (rows.filter (fun s => s.passed_screen)).insertionSort viewLe

/-- From useStocks.ts lines 26–29: the one-shot fetch reads all rows
`ORDER BY score DESC` (no tiebreaker); embedded as one admissible
realisation of that order, the stable score-descending sort. -/
def fetchStocksOrder (rows : List Stock) : List Stock :=
  sortByScore rows

/-- From schema.sql lines 68–79: the `market_status` row. -/
structure MarketStatus where
  id : Int
  status : String
  session : String
  message : String
  can_trade : Bool
  should_update : Bool
deriving DecidableEq, Repr

/-- The structural constraints of the `market_status` table: the primary
key on `id` (no two rows share an `id`) together with the
`CONSTRAINT single_row CHECK (id = 1)`. -/
def marketStatusTableOk (t : List MarketStatus) : Prop :=
  (∀ r ∈ t, r.id = 1) ∧ (t.map (fun r => r.id)).Nodup

/-- From schema.sql lines 82–84: the default row inserted on setup. -/
def initialMarketStatus : MarketStatus :=
  { id := 1, status := "closed", session := "unknown"
    message := "Initializing...", can_trade := false, should_update := false }

/-- A change event on the `market_status` table. -/
inductive StatusEvent where
  | insert (row : MarketStatus)
  | update (row : MarketStatus)
  | delete
deriving DecidableEq, Repr

/-- From useStocks.ts lines 99–103: the status subscription handler sets
the locally cached status to the whole `payload.new` record on an
UPDATE event and ignores every other event type. -/
def handleStatusEvent (st : Option MarketStatus) : StatusEvent → Option MarketStatus
  | .update n => some n
  | _ => st

/-- An insert into the `stocks` table (`schema.sql` lines 9–65) as seen
by the column-default mechanism: `none` means the writer omitted the
column.  SQL `DECIMAL` columns are `ℚ`, `BIGINT`/`INTEGER` are `Int`. -/
structure RawStockRow where
  symbol : String
  name : String
  price : Option ℚ
  open_price : Option ℚ
  high : Option ℚ
  low : Option ℚ
  prev_close : Option ℚ
  change : Option ℚ
  change_percent : Option ℚ
  volume : Option Int
  avg_volume : Option Int
  frequency : Option Int
  value : Option ℚ
  bid : Option ℚ
  ask : Option ℚ
  bid_size : Option Int
  ask_size : Option Int
  iep : Option ℚ
  iev : Option Int
  ara : Option ℚ
  arb : Option ℚ
  ara_pct : Option ℚ
  arb_pct : Option ℚ
  foreign_buy : Option Int
  foreign_sell : Option Int
  net_foreign : Option Int
  acc_dist_status : Option String
  acc_dist_score : Option Int
  market_cap : Option Int
  volatility : Option ℚ
  spread : Option ℚ
  volume_spike : Option ℚ
  rsi : Option ℚ
  score : Option Int
  passed_screen : Option Bool

/-- A stored `stocks` row: every column carries a concrete value. -/
structure StockRow where
  symbol : String
  name : String
  price : ℚ
  open_price : ℚ
  high : ℚ
  low : ℚ
  prev_close : ℚ
  change : ℚ
  change_percent : ℚ
  volume : Int
  avg_volume : Int
  frequency : Int
  value : ℚ
  bid : ℚ
  ask : ℚ
  bid_size : Int
  ask_size : Int
  iep : ℚ
  iev : Int
  ara : ℚ
  arb : ℚ
  ara_pct : ℚ
  arb_pct : ℚ
  foreign_buy : Int
  foreign_sell : Int
  net_foreign : Int
  acc_dist_status : String
  acc_dist_score : Int
  market_cap : Int
  volatility : ℚ
  spread : ℚ
  volume_spike : ℚ
  rsi : ℚ
  score : Int
  passed_screen : Bool

/-- The `DEFAULT` clauses of `schema.sql` lines 9–65 applied to an
insert: every omitted column receives its declared default —
`volume_spike DEFAULT 100`, `rsi DEFAULT 50`,
`acc_dist_status DEFAULT 'neutral'`, `passed_screen DEFAULT FALSE`, and
`0` for every other numeric column. -/
def applyColumnDefaults (r : RawStockRow) : StockRow :=
  { symbol := r.symbol
    name := r.name
    price := r.price.getD 0
    open_price := r.open_price.getD 0
    high := r.high.getD 0
    low := r.low.getD 0
    prev_close := r.prev_close.getD 0
    change := r.change.getD 0
    change_percent := r.change_percent.getD 0
    volume := r.volume.getD 0
    avg_volume := r.avg_volume.getD 0
    frequency := r.frequency.getD 0
    value := r.value.getD 0
    bid := r.bid.getD 0
    ask := r.ask.getD 0
    bid_size := r.bid_size.getD 0
    ask_size := r.ask_size.getD 0
    iep := r.iep.getD 0
    iev := r.iev.getD 0
    ara := r.ara.getD 0
    arb := r.arb.getD 0
    ara_pct := r.ara_pct.getD 0
    arb_pct := r.arb_pct.getD 0
    foreign_buy := r.foreign_buy.getD 0
    foreign_sell := r.foreign_sell.getD 0
    net_foreign := r.net_foreign.getD 0
    acc_dist_status := r.acc_dist_status.getD "neutral"
    acc_dist_score := r.acc_dist_score.getD 0
    market_cap := r.market_cap.getD 0
    volatility := r.volatility.getD 0
    spread := r.spread.getD 0
    volume_spike := r.volume_spike.getD 100
    rsi := r.rsi.getD 50
    score := r.score.getD 0
    passed_screen := r.passed_screen.getD false }

/-- A raw insert supplying nothing but the two NOT NULL identity
columns. -/
def emptyRawRow : RawStockRow :=
  { symbol := "AAAA", name := "Test"
    price := none, open_price := none, high := none, low := none
    prev_close := none, change := none, change_percent := none
    volume := none, avg_volume := none, frequency := none, value := none
    bid := none, ask := none, bid_size := none, ask_size := none
    iep := none, iev := none, ara := none, arb := none
    ara_pct := none, arb_pct := none
    foreign_buy := none, foreign_sell := none, net_foreign := none
    acc_dist_status := none, acc_dist_score := none, market_cap := none
    volatility := none, spread := none, volume_spike := none, rsi := none
    score := none, passed_screen := none }

namespace Screening

/-- Modelled from the spec: the screening/scoring engine (the Python
scraper) is not under `src/`; only its schema and the spec §4.3 describe
it.  These are the inputs the five criteria of §4.3 read. -/
structure SnapshotMetrics where
  price : ℚ
  volume : Int
  volatility : ℚ
  change_percent : ℚ
  spread : ℚ
deriving DecidableEq, Repr

/-- Modelled from the spec §4.3: price band criterion,
`100 ≤ price ≤ 10,000`, weight 20. -/
def priceBandOk (m : SnapshotMetrics) : Bool :=
  decide (100 ≤ m.price) && decide (m.price ≤ 10000)

/-- Modelled from the spec §4.3: liquidity criterion,
`volume > 1,000,000`, weight 25. -/
def liquidityOk (m : SnapshotMetrics) : Bool :=
  decide (1000000 < m.volume)

/-- Modelled from the spec §4.3: volatility criterion,
`volatility > 2%`, weight 20. -/
def volatilityOk (m : SnapshotMetrics) : Bool :=
  decide (2 < m.volatility)

/-- Modelled from the spec §4.3: momentum criterion,
`change_percent > 0.5%`, weight 15. -/
def momentumOk (m : SnapshotMetrics) : Bool :=
  decide ((1 : ℚ) / 2 < m.change_percent)

/-- Modelled from the spec §4.3: spread criterion, `spread < 2%`,
weight 20. -/
def spreadOk (m : SnapshotMetrics) : Bool :=
  decide (m.spread < 2)

/-- Modelled from the spec §4.3: the five criteria with their
configured default weights 20, 25, 20, 15, 20. -/
def criteria (m : SnapshotMetrics) : List (Bool × Int) :=
  [(priceBandOk m, 20), (liquidityOk m, 25), (volatilityOk m, 20),
   (momentumOk m, 15), (spreadOk m, 20)]

/-- Modelled from the spec §4.3: `score` is the sum of the weights of
exactly the passing criteria; a failing criterion contributes 0. -/
def score (m : SnapshotMetrics) : Int :=
  ((criteria m).filter (fun c => c.1)).foldl (fun acc c => acc + c.2) 0

/-- Modelled from the spec §4.3: `passed_screen` is the logical AND of
the five independently evaluated criteria. -/
def passed_screen (m : SnapshotMetrics) : Bool :=
  (criteria m).all (fun c => c.1)

end Screening

/-- From StatsCards.tsx line 33: the pass-rate figure,
`totalStocks > 0 ? (screenedStocks / totalStocks) * 100 : 0` (the
rendering then formats it with one decimal). -/
def passRate (totalStocks screenedCount : Nat) : ℚ :=
  if 0 < totalStocks then ((screenedCount : ℚ) / (totalStocks : ℚ)) * 100 else 0

/-! ## Helper lemmas on stable sorting -/

section SortLemmas

variable {α : Type*} (r : α → α → Prop) [DecidableRel r]

/-- An element related to everything in the list is inserted at the
front. -/
theorem orderedInsert_eq_cons (x : α) (l : List α) (h : ∀ z ∈ l, r x z) :
    l.orderedInsert r x = x :: l := by
  cases l with
  | nil => rfl
  | cons b t => exact List.orderedInsert_of_le r t (h b (List.mem_cons_self b t))

/-- On a sorted list, inserting and then filtering is filtering and then
inserting (dropping the new element when the filter rejects it). -/
theorem filter_orderedInsert [IsTrans α r] (p : α → Bool) (x : α) :
    ∀ l : List α, l.Sorted r →
      (l.orderedInsert r x).filter p =
        if p x then (l.filter p).orderedInsert r x else l.filter p
  | [], _ => by
      by_cases hx : p x <;> simp [hx]
  | y :: ys, h => by
      have hys : ys.Sorted r := h.of_cons
      have hyz : ∀ z ∈ ys, r y z := List.rel_of_sorted_cons h
      by_cases hxy : r x y
      · rw [List.orderedInsert_of_le r ys hxy]
        by_cases hx : p x
        · rw [if_pos hx, List.filter_cons, if_pos hx]
          rw [orderedInsert_eq_cons r x ((y :: ys).filter p)]
          intro z hz
          rcases List.mem_cons.mp (List.mem_of_mem_filter hz) with rfl | hz'
          · exact hxy
          · exact trans_of r hxy (hyz z hz')
        · rw [if_neg hx, List.filter_cons, if_neg hx]
      · rw [List.orderedInsert, if_neg hxy]
        have ih := filter_orderedInsert p x ys hys
        by_cases hy : p y
        · rw [List.filter_cons, if_pos hy, List.filter_cons, if_pos hy, ih]
          by_cases hx : p x
          · rw [if_pos hx, if_pos hx, List.orderedInsert, if_neg hxy]
          · rw [if_neg hx, if_neg hx]
        · rw [List.filter_cons, if_neg hy, List.filter_cons, if_neg hy, ih]

/-- A stable sort commutes with filtering. -/
theorem filter_insertionSort [IsTotal α r] [IsTrans α r] (p : α → Bool) :
    ∀ l : List α, (l.insertionSort r).filter p = (l.filter p).insertionSort r
  | [] => rfl
  | x :: xs => by
      rw [List.insertionSort,
        filter_orderedInsert r p x _ (List.sorted_insertionSort r xs),
        filter_insertionSort p xs, List.filter_cons]
      by_cases hx : p x
      · rw [if_pos hx, if_pos hx, List.insertionSort]
      · rw [if_neg hx, if_neg hx]

end SortLemmas

/-! ## Helper lemmas on the reconciliation handlers -/

/-- Replace-at-found-index-or-append is exactly the keyed write
`mergeRow`. -/
theorem set_findIdx_eq_mergeRow (n : Stock) :
    ∀ prev : List Stock,
      (if prev.findIdx (fun s => s.symbol == n.symbol) < prev.length
        then prev.set (prev.findIdx (fun s => s.symbol == n.symbol)) n
        else prev ++ [n]) = mergeRow n prev
  | [] => by simp [mergeRow]
  | s :: rest => by
      by_cases hs : s.symbol = n.symbol
      · have hb : (s.symbol == n.symbol) = true := beq_iff_eq.mpr hs
        simp [List.findIdx_cons, hb, mergeRow, hs]
      · have hb : (s.symbol == n.symbol) = false := beq_eq_false_iff_ne.mpr hs
        have ih := set_findIdx_eq_mergeRow n rest
        rw [mergeRow, if_neg hs, ← ih]
        simp only [List.findIdx_cons, hb, cond_false, List.length_cons,
          Nat.add_lt_add_iff_right, List.set_cons_succ, List.cons_append]
        by_cases hlt : rest.findIdx (fun s => s.symbol == n.symbol) < rest.length
        · rw [if_pos hlt, if_pos hlt]
        · rw [if_neg hlt, if_neg hlt]

/-- The INSERT/UPDATE handler is the keyed write followed by the stable
score-descending sort. -/
theorem applyUpsert_eq (n : Stock) (prev : List Stock) :
    applyUpsert n prev = sortByScore (mergeRow n prev) := by
  rw [applyUpsert, ← set_findIdx_eq_mergeRow n prev]
  exact (apply_ite sortByScore _ _ _).symm

/-- When no row carries the new symbol, the keyed write appends. -/
theorem mergeRow_of_absent (n : Stock) :
    ∀ l : List Stock, (∀ s ∈ l, s.symbol ≠ n.symbol) → mergeRow n l = l ++ [n]
  | [], _ => rfl
  | s :: rest, h => by
      rw [mergeRow, if_neg (h s (List.mem_cons_self s rest)),
        mergeRow_of_absent n rest (fun z hz => h z (List.mem_cons_of_mem s hz))]
      rfl

/-- When the symbols are unique and `r0` is the row carrying the new
symbol, the keyed write is, up to permutation, erasing `r0` and adding
the new row. -/
theorem mergeRow_perm_cons_erase (n r0 : Stock) :
    ∀ l : List Stock, (l.map Stock.symbol).Nodup → r0 ∈ l →
      r0.symbol = n.symbol → (mergeRow n l).Perm (n :: l.erase r0)
  | [], _, hm, _ => absurd hm (List.not_mem_nil r0)
  | s :: rest, hn, hm, hsym => by
      rw [List.map_cons, List.nodup_cons] at hn
      by_cases hs : s.symbol = n.symbol
      · have hr0 : r0 = s := by
          rcases List.mem_cons.mp hm with rfl | hm'
          · rfl
          · exfalso
            have hmem : r0.symbol ∈ List.map Stock.symbol rest :=
              List.mem_map_of_mem Stock.symbol hm'
            rw [hsym, ← hs] at hmem
            exact hn.1 hmem
        rw [mergeRow, if_pos hs, hr0, List.erase_cons_head]
      · have hr0 : r0 ≠ s := fun h => hs (h ▸ hsym)
        have hm' : r0 ∈ rest := (List.mem_cons.mp hm).resolve_left hr0
        rw [mergeRow, if_neg hs,
          List.erase_cons_tail (by simpa using hr0.symm)]
        exact ((mergeRow_perm_cons_erase n r0 rest hn.2 hm' hsym).cons s).trans
          (List.Perm.swap n s _)

/-- The keyed write respects permutation of unique-symbol states. -/
theorem mergeRow_perm (n : Stock) {l l' : List Stock}
    (hp : l.Perm l') (hn : (l'.map Stock.symbol).Nodup) :
    (mergeRow n l).Perm (mergeRow n l') := by
  by_cases he : ∃ r0 ∈ l', r0.symbol = n.symbol
  · obtain ⟨r0, hm', hsym⟩ := he
    have hnl : (l.map Stock.symbol).Nodup :=
      ((hp.map Stock.symbol).nodup_iff).mpr hn
    have h1 := mergeRow_perm_cons_erase n r0 l hnl (hp.mem_iff.mpr hm') hsym
    have h2 := mergeRow_perm_cons_erase n r0 l' hn hm' hsym
    exact h1.trans (((hp.erase r0).cons n).trans h2.symm)
  · push_neg at he
    have hel : ∀ s ∈ l, s.symbol ≠ n.symbol := fun s hs => he s (hp.mem_iff.mp hs)
    rw [mergeRow_of_absent n l hel, mergeRow_of_absent n l' he]
    exact hp.append_right [n]

/-- Symbols appearing after a keyed write appeared before, unless they
are the written symbol. -/
theorem mem_map_symbol_mergeRow (n : Stock) :
    ∀ l : List Stock, ∀ y, y ∈ (mergeRow n l).map Stock.symbol →
      y ∈ l.map Stock.symbol ∨ y = n.symbol
  | [], y, hy => by simpa [mergeRow] using hy
  | s :: rest, y, hy => by
      by_cases hs : s.symbol = n.symbol
      · rw [mergeRow, if_pos hs] at hy
        rcases List.mem_cons.mp hy with rfl | hy'
        · exact Or.inr rfl
        · exact Or.inl (List.mem_cons_of_mem _ hy')
      · rw [mergeRow, if_neg hs] at hy
        rcases List.mem_cons.mp hy with rfl | hy'
        · exact Or.inl (List.mem_cons_self _ _)
        · rcases mem_map_symbol_mergeRow n rest y hy' with h | h
          · exact Or.inl (List.mem_cons_of_mem _ h)
          · exact Or.inr h

/-- A keyed write keeps the symbols unique. -/
theorem nodup_mergeRow (n : Stock) :
    ∀ l : List Stock, (l.map Stock.symbol).Nodup →
      ((mergeRow n l).map Stock.symbol).Nodup
  | [], _ => by simp [mergeRow]
  | s :: rest, hn => by
      rw [List.map_cons, List.nodup_cons] at hn
      by_cases hs : s.symbol = n.symbol
      · rw [mergeRow, if_pos hs, List.map_cons, List.nodup_cons]
        exact ⟨fun h => hn.1 (hs ▸ h), hn.2⟩
      · rw [mergeRow, if_neg hs, List.map_cons, List.nodup_cons]
        refine ⟨fun h => ?_, nodup_mergeRow n rest hn.2⟩
        rcases mem_map_symbol_mergeRow n rest s.symbol h with h' | h'
        · exact hn.1 h'
        · exact hs h'

/-- One handler step agrees, up to permutation, with the spec's keyed
mutation, provided the spec-side state has unique symbols. -/
theorem applyEvent_perm {st sst : List Stock} (hp : st.Perm sst)
    (hn : (sst.map Stock.symbol).Nodup) (e : ChangeEvent) :
    (applyEvent st e).Perm (specApply sst e) := by
  cases e with
  | upsert n =>
      rw [applyEvent, applyUpsert_eq, specApply]
      exact (List.perm_insertionSort scoreLe _).trans (mergeRow_perm n hp hn)
  | delete sym =>
      exact hp.filter (fun s => s.symbol != sym)

/-- The spec's keyed mutations keep the symbols unique. -/
theorem specApply_nodup {sst : List Stock}
    (hn : (sst.map Stock.symbol).Nodup) (e : ChangeEvent) :
    ((specApply sst e).map Stock.symbol).Nodup := by
  cases e with
  | upsert n => exact nodup_mergeRow n sst hn
  | delete sym =>
      exact ((List.filter_sublist sst).map Stock.symbol).nodup hn

/-- The handler state after any event sequence agrees, up to
permutation, with the spec-side folded state. -/
theorem applyEvents_perm :
    ∀ (es : List ChangeEvent) {st sst : List Stock}, st.Perm sst →
      (sst.map Stock.symbol).Nodup → (applyEvents st es).Perm (specApplyEvents sst es)
  | [], _, _, hp, _ => hp
  | e :: es, st, sst, hp, hn => by
      rw [applyEvents, List.foldl_cons, specApplyEvents, List.foldl_cons]
      exact applyEvents_perm es (applyEvent_perm hp hn e) (specApply_nodup hn e)

/-- The spec-side folded state keeps the symbols unique. -/
theorem specApplyEvents_nodup :
    ∀ (es : List ChangeEvent) {sst : List Stock},
      (sst.map Stock.symbol).Nodup →
      ((specApplyEvents sst es).map Stock.symbol).Nodup
  | [], _, hn => hn
  | e :: es, sst, hn => by
      rw [specApplyEvents, List.foldl_cons]
      exact specApplyEvents_nodup es (specApply_nodup hn e)

/-! ## Concrete rows used by counterexamples and witnesses -/

/-- A neutral stock: no bonus applies, so its recommendation score
equals its base score of 50. -/
def stockA : Stock :=
  { symbol := "AAAA", score := 50, acc_dist_status := "neutral"
    net_foreign := 0, change_percent := 0, passed_screen := true }

/-- A stock with base score 40 that earns all three bonuses, for a
recommendation score of 140. -/
def stockB : Stock :=
  { symbol := "BBBB", score := 40, acc_dist_status := "accumulation"
    net_foreign := 1, change_percent := 1, passed_screen := true }

/-- A neutral stock tying `stockA` at recommendation score 50, with a
lexicographically later symbol. -/
def stockTie : Stock :=
  { symbol := "BBBB", score := 50, acc_dist_status := "neutral"
    net_foreign := 0, change_percent := 0, passed_screen := true }

/-- The ordering the spec's words describe for the presentation ranking:
descending by combined value, falling back to symbol lexical order on
exact ties. -/
def recSymLe (a b : Stock) : Prop :=
  getRecommendationScore b < getRecommendationScore a ∨
    (getRecommendationScore a = getRecommendationScore b ∧
      a.symbol.data ≤ b.symbol.data)

instance : DecidableRel recSymLe := fun a b =>
  inferInstanceAs (Decidable (_ ∨ _))

/-! ## The claims -/

/-- C1, counterexample: the server-side orders (the one-shot fetch,
`ORDER BY score DESC`, and the `screened_stocks` view,
`ORDER BY score DESC, symbol ASC`) do NOT agree with the client's
`sortByRecommendation`: with `stockA` (score 50, no bonuses, combined
50) and `stockB` (score 40, all bonuses, combined 140) the server
delivers `stockA` first while the client computes `stockB` first. -/
theorem C1_counterexample :
    fetchStocksOrder [stockA, stockB] ≠ sortByRecommendation [stockA, stockB] ∧
    screened_stocks [stockA, stockB] ≠
      sortByRecommendation ([stockA, stockB].filter (fun s => s.passed_screen)) := by
  constructor <;> decide

/-- C1, amended: the server orders by the base score only (the view
additionally by symbol), not by the client's combined ranking; the two
orders agree for row sets in which no row earns any bonus (combined
score = base score), where the client's stable re-sort leaves the
server-delivered order unchanged. -/
theorem C1_amended_server_client_order (rows : List Stock)
    (h : ∀ s ∈ rows, getRecommendationScore s = s.score) :
    sortByRecommendation (fetchStocksOrder rows) = fetchStocksOrder rows ∧
    sortByRecommendation (screened_stocks rows) = screened_stocks rows := by
  constructor
  · apply List.Sorted.insertionSort_eq
    refine List.Pairwise.imp_of_mem ?_ (List.sorted_insertionSort scoreLe rows)
    intro a b ha hb hab
    have ha' : a ∈ rows := (List.mem_insertionSort scoreLe).mp ha
    have hb' : b ∈ rows := (List.mem_insertionSort scoreLe).mp hb
    show getRecommendationScore b ≤ getRecommendationScore a
    rw [h a ha', h b hb']
    exact hab
  · apply List.Sorted.insertionSort_eq
    refine List.Pairwise.imp_of_mem ?_
      (List.sorted_insertionSort viewLe (rows.filter (fun s => s.passed_screen)))
    intro a b ha hb hab
    have ha' : a ∈ rows :=
      List.mem_of_mem_filter ((List.mem_insertionSort viewLe).mp ha)
    have hb' : b ∈ rows :=
      List.mem_of_mem_filter ((List.mem_insertionSort viewLe).mp hb)
    show getRecommendationScore b ≤ getRecommendationScore a
    rw [h a ha', h b hb']
    rcases hab with hlt | ⟨heq, _⟩
    · exact hlt.le
    · exact heq.ge

/-- C1, witness for the amended theorem at a bonus-free singleton row
set. -/
theorem C1_witness :
    (∀ s ∈ [stockA], getRecommendationScore s = s.score) ∧
    (sortByRecommendation (fetchStocksOrder [stockA]) = fetchStocksOrder [stockA] ∧
     sortByRecommendation (screened_stocks [stockA]) = screened_stocks [stockA]) :=
  ⟨by decide, C1_amended_server_client_order [stockA] (by decide)⟩

/-- C2, counterexample: on exact ties of the combined value the client's
sort does NOT fall back to symbol lexical order — it is a stable sort,
so ties keep their input order: `stockTie` (symbol BBBB) and `stockA`
(symbol AAAA) tie at combined value 50, and sorting `[stockTie, stockA]`
leaves BBBB before AAAA, while the symbol-tiebreak order puts AAAA
first. -/
theorem C2_counterexample :
    sortByRecommendation [stockTie, stockA] ≠
      List.insertionSort recSymLe [stockTie, stockA] := by
  decide

/-- C2, amended: the presentation ranking sorts descending by the
combined value (base score plus the accumulation, net-foreign and
change-percent bonuses); exact ties keep their input order (the sort is
stable) rather than falling back to symbol order.  The comparator is a
total preorder, the output is a permutation of the input, and re-sorting
an already-sorted list — in particular any output of the sort — yields
the same sequence. -/
theorem C2_amended_ranking (l : List Stock) :
    (sortByRecommendation l).Sorted recLe ∧
    sortByRecommendation (sortByRecommendation l) = sortByRecommendation l ∧
    (sortByRecommendation l).Perm l :=
  ⟨List.sorted_insertionSort recLe l,
   (List.sorted_insertionSort recLe l).insertionSort_eq,
   List.perm_insertionSort recLe l⟩

/-- C3: the screened collection exposed by the client is exactly the
`passed_screen` subset of the exposed full collection (so it carries the
same combined-ranking order), and it is recomputed from the full
reconciled state `stocks` on every read — there is no separately
maintained screened list in the state. -/
theorem C3_screened_is_filtered_view (stocks : List Stock) :
    screenedStocksView stocks = (stocksView stocks).filter (fun s => s.passed_screen) ∧
    screenedStocksView stocks =
      sortByRecommendation (stocks.filter (fun s => s.passed_screen)) := by
  refine ⟨?_, rfl⟩
  rw [screenedStocksView, stocksView, sortByRecommendation, sortByRecommendation,
    filter_insertionSort recLe (fun s => s.passed_screen) stocks]

/-- C4, counterexample: after an insert/update event the handler
re-sorts by the base score only, NOT by the combined ranking formula of
§4.3: upserting `stockB` (score 40, combined 140) into `[stockA]`
(score 50, combined 50) leaves `stockA` first, while the combined
ranking puts `stockB` first. -/
theorem C4_counterexample :
    applyUpsert stockB [stockA] ≠ sortByRecommendation (mergeRow stockB [stockA]) := by
  decide

/-- C4, amended: the insert/update handler replaces the row in place
when the event's symbol is present and appends it otherwise (exactly the
keyed write `mergeRow`), and then re-sorts the full local collection by
the BASE score descending (stable); the combined ranking of §4.3 is
instead applied by the exposed views on every read. -/
theorem C4_amended_handler (n : Stock) (prev : List Stock) :
    applyUpsert n prev = sortByScore (mergeRow n prev) ∧
    (applyUpsert n prev).Sorted scoreLe := by
  refine ⟨applyUpsert_eq n prev, ?_⟩
  rw [applyUpsert_eq n prev]
  exact List.sorted_insertionSort scoreLe _

/-- C5: starting from an initial fetch with unique symbols, the state
after any finite event sequence equals — as a collection of rows; the
handler additionally keeps the list score-sorted — the initial fetch
with the keyed mutations folded in event order: an upsert writes the row
keyed by its symbol, a delete removes exactly the rows whose symbol
matches. -/
theorem C5_reconciliation (st : List Stock) (es : List ChangeEvent)
    (h : (st.map Stock.symbol).Nodup) :
    (applyEvents st es).Perm (specApplyEvents st es) :=
  applyEvents_perm es (List.Perm.refl st) h

/-- C5, witness: one upsert of a new symbol followed by one delete. -/
theorem C5_witness :
    ([stockA].map Stock.symbol).Nodup ∧
    (applyEvents [stockA] [ChangeEvent.upsert stockB, ChangeEvent.delete "AAAA"]).Perm
      (specApplyEvents [stockA] [ChangeEvent.upsert stockB, ChangeEvent.delete "AAAA"]) :=
  ⟨by decide, C5_reconciliation [stockA] _ (by decide)⟩

/-- C9: the handlers preserve uniqueness of symbols: if the initial
state has at most one row per symbol, so does the state after any finite
sequence of insert, update and delete events. -/
theorem C9_symbols_unique (st : List Stock) (es : List ChangeEvent)
    (h : (st.map Stock.symbol).Nodup) :
    ((applyEvents st es).map Stock.symbol).Nodup :=
  ((applyEvents_perm es (List.Perm.refl st) h).map Stock.symbol).nodup_iff.mpr
    (specApplyEvents_nodup es h)

/-- C9, witness: an update of an existing symbol, a delete and a fresh
insert. -/
theorem C9_witness :
    ([stockA, stockB].map Stock.symbol).Nodup ∧
    ((applyEvents [stockA, stockB]
        [ChangeEvent.upsert stockTie, ChangeEvent.delete "AAAA",
         ChangeEvent.upsert stockA]).map Stock.symbol).Nodup :=
  ⟨by decide,
   C9_symbols_unique [stockA, stockB]
     [ChangeEvent.upsert stockTie, ChangeEvent.delete "AAAA",
      ChangeEvent.upsert stockA] (by decide)⟩

/-- C6 (spec-modelled, the scoring engine is not under src): the score
lies in [0, 100] and equals the sum of the weights (price band 20,
liquidity 25, volatility 20, momentum 15, spread 20) of exactly the
passing criteria, a failing criterion contributing 0; and the screen
passes iff all five criteria hold. -/
theorem C6_score_and_screen (m : Screening.SnapshotMetrics) :
    0 ≤ Screening.score m ∧ Screening.score m ≤ 100 ∧
    Screening.score m =
      (if Screening.priceBandOk m then 20 else 0) +
        (if Screening.liquidityOk m then 25 else 0) +
        (if Screening.volatilityOk m then 20 else 0) +
        (if Screening.momentumOk m then 15 else 0) +
        (if Screening.spreadOk m then 20 else 0) ∧
    (Screening.passed_screen m = true ↔
      (Screening.priceBandOk m = true ∧ Screening.liquidityOk m = true ∧
       Screening.volatilityOk m = true ∧ Screening.momentumOk m = true ∧
       Screening.spreadOk m = true)) := by
  cases h1 : Screening.priceBandOk m <;>
    cases h2 : Screening.liquidityOk m <;>
      cases h3 : Screening.volatilityOk m <;>
        cases h4 : Screening.momentumOk m <;>
          cases h5 : Screening.spreadOk m <;>
            simp_all [Screening.score, Screening.passed_screen, Screening.criteria]

/-- C7: the market-status table structurally admits at most one row (the
primary key and the `CHECK (id = 1)` constraint leave no room for a
second), the schema's initial insert provides exactly that one row, and
the client's status handler either leaves its cached record untouched or
replaces it wholesale with the event's record — it never mixes fields of
the old and the new record. -/
theorem C7_singleton_status :
    (∀ t : List MarketStatus, marketStatusTableOk t → t.length ≤ 1) ∧
    (marketStatusTableOk [initialMarketStatus] ∧ [initialMarketStatus].length = 1) ∧
    (∀ (st : Option MarketStatus) (e : StatusEvent),
      handleStatusEvent st e = st ∨
        ∃ n, e = StatusEvent.update n ∧ handleStatusEvent st e = some n) := by
  refine ⟨fun t ht => ?_, ⟨⟨fun r hr => by rw [List.mem_singleton.mp hr]; rfl, by decide⟩, rfl⟩,
    fun st e => ?_⟩
  · have hall : ∀ b ∈ t.map (fun r => r.id), b = 1 := by
      intro b hb
      obtain ⟨r, hr, rfl⟩ := List.mem_map.mp hb
      exact ht.1 r hr
    have hrep := List.eq_replicate_of_mem hall
    have hnd := ht.2
    rw [hrep] at hnd
    simpa using List.nodup_replicate.mp hnd
  · cases e with
    | insert row => exact Or.inl rfl
    | update n => exact Or.inr ⟨n, rfl, rfl⟩
    | delete => exact Or.inl rfl

/-- C7, witness: the structural bound applied to the schema's initial
single-row table. -/
theorem C7_witness :
    marketStatusTableOk [initialMarketStatus] ∧ [initialMarketStatus].length ≤ 1 :=
  ⟨⟨fun r hr => by rw [List.mem_singleton.mp hr]; rfl, by decide⟩,
   C7_singleton_status.1 [initialMarketStatus]
     ⟨fun r hr => by rw [List.mem_singleton.mp hr]; rfl, by decide⟩⟩

/-- C8: every column omitted by the writer receives its declared
default — `volume_spike` the neutral 100, `rsi` the neutral 50, and
every other numeric column 0 — so a stored row always carries a concrete
value in every numeric column that the scoring formula may read. -/
theorem C8_column_defaults (r : RawStockRow) :
    (r.volume_spike = none → (applyColumnDefaults r).volume_spike = 100) ∧
    (r.rsi = none → (applyColumnDefaults r).rsi = 50) ∧
    (r.price = none → (applyColumnDefaults r).price = 0) ∧
    (r.open_price = none → (applyColumnDefaults r).open_price = 0) ∧
    (r.high = none → (applyColumnDefaults r).high = 0) ∧
    (r.low = none → (applyColumnDefaults r).low = 0) ∧
    (r.prev_close = none → (applyColumnDefaults r).prev_close = 0) ∧
    (r.change = none → (applyColumnDefaults r).change = 0) ∧
    (r.change_percent = none → (applyColumnDefaults r).change_percent = 0) ∧
    (r.volume = none → (applyColumnDefaults r).volume = 0) ∧
    (r.avg_volume = none → (applyColumnDefaults r).avg_volume = 0) ∧
    (r.frequency = none → (applyColumnDefaults r).frequency = 0) ∧
    (r.value = none → (applyColumnDefaults r).value = 0) ∧
    (r.bid = none → (applyColumnDefaults r).bid = 0) ∧
    (r.ask = none → (applyColumnDefaults r).ask = 0) ∧
    (r.bid_size = none → (applyColumnDefaults r).bid_size = 0) ∧
    (r.ask_size = none → (applyColumnDefaults r).ask_size = 0) ∧
    (r.iep = none → (applyColumnDefaults r).iep = 0) ∧
    (r.iev = none → (applyColumnDefaults r).iev = 0) ∧
    (r.ara = none → (applyColumnDefaults r).ara = 0) ∧
    (r.arb = none → (applyColumnDefaults r).arb = 0) ∧
    (r.ara_pct = none → (applyColumnDefaults r).ara_pct = 0) ∧
    (r.arb_pct = none → (applyColumnDefaults r).arb_pct = 0) ∧
    (r.foreign_buy = none → (applyColumnDefaults r).foreign_buy = 0) ∧
    (r.foreign_sell = none → (applyColumnDefaults r).foreign_sell = 0) ∧
    (r.net_foreign = none → (applyColumnDefaults r).net_foreign = 0) ∧
    (r.acc_dist_score = none → (applyColumnDefaults r).acc_dist_score = 0) ∧
    (r.market_cap = none → (applyColumnDefaults r).market_cap = 0) ∧
    (r.volatility = none → (applyColumnDefaults r).volatility = 0) ∧
    (r.spread = none → (applyColumnDefaults r).spread = 0) ∧
    (r.score = none → (applyColumnDefaults r).score = 0) := by
  refine ⟨?_, ?_, ?_, ?_, ?_, ?_, ?_, ?_, ?_, ?_, ?_, ?_, ?_, ?_, ?_, ?_, ?_,
    ?_, ?_, ?_, ?_, ?_, ?_, ?_, ?_, ?_, ?_, ?_, ?_, ?_, ?_⟩ <;>
    (intro h; simp [applyColumnDefaults, h])

/-- C8, witness: the defaults evaluated on a raw insert that omits every
defaultable column. -/
theorem C8_witness :
    (applyColumnDefaults emptyRawRow).volume_spike = 100 ∧
    (applyColumnDefaults emptyRawRow).rsi = 50 ∧
    (applyColumnDefaults emptyRawRow).price = 0 ∧
    (applyColumnDefaults emptyRawRow).open_price = 0 ∧
    (applyColumnDefaults emptyRawRow).high = 0 ∧
    (applyColumnDefaults emptyRawRow).low = 0 ∧
    (applyColumnDefaults emptyRawRow).prev_close = 0 ∧
    (applyColumnDefaults emptyRawRow).change = 0 ∧
    (applyColumnDefaults emptyRawRow).change_percent = 0 ∧
    (applyColumnDefaults emptyRawRow).volume = 0 ∧
    (applyColumnDefaults emptyRawRow).avg_volume = 0 ∧
    (applyColumnDefaults emptyRawRow).frequency = 0 ∧
    (applyColumnDefaults emptyRawRow).value = 0 ∧
    (applyColumnDefaults emptyRawRow).bid = 0 ∧
    (applyColumnDefaults emptyRawRow).ask = 0 ∧
    (applyColumnDefaults emptyRawRow).bid_size = 0 ∧
    (applyColumnDefaults emptyRawRow).ask_size = 0 ∧
    (applyColumnDefaults emptyRawRow).iep = 0 ∧
    (applyColumnDefaults emptyRawRow).iev = 0 ∧
    (applyColumnDefaults emptyRawRow).ara = 0 ∧
    (applyColumnDefaults emptyRawRow).arb = 0 ∧
    (applyColumnDefaults emptyRawRow).ara_pct = 0 ∧
    (applyColumnDefaults emptyRawRow).arb_pct = 0 ∧
    (applyColumnDefaults emptyRawRow).foreign_buy = 0 ∧
    (applyColumnDefaults emptyRawRow).foreign_sell = 0 ∧
    (applyColumnDefaults emptyRawRow).net_foreign = 0 ∧
    (applyColumnDefaults emptyRawRow).acc_dist_score = 0 ∧
    (applyColumnDefaults emptyRawRow).market_cap = 0 ∧
    (applyColumnDefaults emptyRawRow).volatility = 0 ∧
    (applyColumnDefaults emptyRawRow).spread = 0 ∧
    (applyColumnDefaults emptyRawRow).score = 0 := by
  obtain ⟨h1, h2, h3, h4, h5, h6, h7, h8, h9, h10, h11, h12, h13, h14, h15, h16,
    h17, h18, h19, h20, h21, h22, h23, h24, h25, h26, h27, h28, h29, h30, h31⟩ :=
    C8_column_defaults emptyRawRow
  exact ⟨h1 rfl, h2 rfl, h3 rfl, h4 rfl, h5 rfl, h6 rfl, h7 rfl, h8 rfl, h9 rfl,
    h10 rfl, h11 rfl, h12 rfl, h13 rfl, h14 rfl, h15 rfl, h16 rfl, h17 rfl,
    h18 rfl, h19 rfl, h20 rfl, h21 rfl, h22 rfl, h23 rfl, h24 rfl, h25 rfl,
    h26 rfl, h27 rfl, h28 rfl, h29 rfl, h30 rfl, h31 rfl⟩

/-- C10: the pass-rate figure divides only under the guard
`totalStocks > 0`, where the denominator cast is nonzero, and renders 0
when `totalStocks` is 0 — the value is a total function of the two
counts, so no undefined division result can be displayed. -/
theorem C10_passRate_guard (totalStocks screenedCount : Nat) :
    (totalStocks = 0 → passRate totalStocks screenedCount = 0) ∧
    (0 < totalStocks → (totalStocks : ℚ) ≠ 0 ∧
      passRate totalStocks screenedCount =
        ((screenedCount : ℚ) / (totalStocks : ℚ)) * 100) := by
  constructor
  · intro h
    simp [passRate, h]
  · intro h
    refine ⟨Nat.cast_ne_zero.mpr (Nat.pos_iff_ne_zero.mp h), ?_⟩
    rw [passRate, if_pos h]

/-- C10, witness: the zero-total branch and a positive-total
evaluation. -/
theorem C10_witness :
    passRate 0 5 = 0 ∧
    (((4 : Nat) : ℚ) ≠ 0 ∧
      passRate 4 1 = (((1 : Nat) : ℚ) / ((4 : Nat) : ℚ)) * 100) :=
  ⟨(C10_passRate_guard 0 5).1 rfl, (C10_passRate_guard 4 1).2 (by decide)⟩

end IndexScreener
